import Mathlib

/-!
Verification of the rate-limited collection and on-disk deduplication
pipeline of the infectious-disease-diagnosis scripts.

The development shallowly embeds the relevant Python functions:

* `Dedup` — deduplicate_collections.py: the scan loop over the input
  collection trees, the statistics block, and the merged-output writing loop.
* `RateLimit` — the `_rate_limit` throttle shared by the collector classes,
  over an abstract monotone rational-valued clock.
* `Collect` — `PubMedCollector.fetch_article_metadata` and
  `SymptomBasedCollector.fetch_metadata_batch`, instrumented with an event
  trace recording rate-limiter waits and HTTP requests.
* `Store` — `save_article_data` (collect_pubmed_pmc.py) and
  `SymptomBasedCollector.save_article`, over a file system modelled as a map
  from (directory, filename) pairs to file contents.
* `Validate` — validate_content_quality.py: keyword-category presence and
  the 0-100 overall score of `validate_article`.
-/

namespace Dedup

/-- A metadata JSON file as the deduplication scan sees it: its path stem,
the pmid that extract_pmid_from_metadata returns (the empty string when the
file is unreadable or carries no pmid field), its JSON content, and the
full-text XML stem (PMC id) that find_fulltext_file locates beside it, when
one exists. -/
structure MetaFile where
  path : String
  pmid : String
  content : String
  fulltextFile : Option String
deriving DecidableEq

/-- An input collection tree: the iteration name paired with the metadata
files that find_all_metadata_files returns for it, in traversal order. -/
abbrev Tree := String × List MetaFile

/-- All (iteration, file) pairs across the input trees, in scan order: the
outer loop over COLLECTIONS.items() and the inner loop over the files. -/
def allOccs (ts : List Tree) : List (String × MetaFile) :=
  ts.flatMap (fun t => t.2.map (fun f => (t.1, f)))

/-- The occurrences that pass the `if pmid:` guard of the scan loop. -/
def scannedOccs (ts : List Tree) : List (String × MetaFile) :=
  (allOccs ts).filter (fun o => o.2.pmid != "")

/-- State of the scan loop of deduplicate_collections: the keys of
pmid_to_metadata in insertion order, and the dictionaries pmid_to_metadata,
pmid_to_sources and pmid_to_fulltext as functions. -/
structure ScanState where
  keys : List String
  firstMeta : String → Option MetaFile
  sources : String → List (String × MetaFile)
  fulltext : String → Option String

/-- The scan state before the loop runs: every dictionary empty. -/
def initState : ScanState :=
  { keys := []
    firstMeta := fun _ => none
    sources := fun _ => []
    fulltext := fun _ => none }

/-- One iteration of the scan loop body (deduplicate_collections.py lines
115-128) on one (iteration, metadata file) pair: append the occurrence to
pmid_to_sources, and on a first occurrence record the file as canonical and
look up its full text. -/
def scanStep (st : ScanState) (o : String × MetaFile) : ScanState :=
  if o.2.pmid = "" then st
  else
    let st1 : ScanState :=
      { st with
        sources := fun q => if q = o.2.pmid then st.sources q ++ [o] else st.sources q }
    match st.firstMeta o.2.pmid with
    | some _ => st1
    | none =>
        { st1 with
          keys := st1.keys ++ [o.2.pmid]
          firstMeta := fun q => if q = o.2.pmid then some o.2 else st.firstMeta q
          fulltext := fun q =>
            if q = o.2.pmid then
              match o.2.fulltextFile with
              | some x => some x
              | none => st.fulltext q
            else st.fulltext q }

/-- The completed scan over all input trees. -/
def scan (ts : List Tree) : ScanState :=
  (allOccs ts).foldl scanStep initState

/-- Number of scanned metadata-file occurrences of identifier i across all
input trees: what the code stores as num_iterations. -/
def occCount (ts : List Tree) (i : String) : Nat :=
  ((scannedOccs ts).filter (fun o => o.2.pmid == i)).length

/-- Taken from the claim's words: the number of input trees that contain at
least one metadata file whose pmid is i. -/
def treesContaining (ts : List Tree) (i : String) : Nat :=
  (ts.filter (fun t => t.2.any (fun f => f.pmid == i))).length

/-- A merged-output record: the canonical file's content together with the
deduplication_info object the output loop attaches to it. -/
structure OutRecord where
  content : String
  appearedIn : List String
  numIterations : Nat
  isDuplicate : Bool
deriving DecidableEq

/-- The record the output loop writes for one pmid: first-seen content plus
provenance derived from pmid_to_sources. -/
def recordFor (st : ScanState) (p : String) : OutRecord :=
  { content :=
      match st.firstMeta p with
      | some f => f.content
      | none => ""
    appearedIn := (st.sources p).map (fun s => s.1)
    numIterations := (st.sources p).length
    isDuplicate := decide (1 < (st.sources p).length) }

/-- The merged output tree: one record per key of pmid_to_metadata, in
dictionary insertion order. -/
def mergedOutput (ts : List Tree) : List (String × OutRecord) :=
  (scan ts).keys.map (fun p => (p, recordFor (scan ts) p))

/-- Byte content of one merged metadata file: json.dump of the original
content with the deduplication_info object added, rendered by a fixed
deterministic encoding. -/
def serializeRecord (r : OutRecord) : String :=
  r.content ++ "|dedup:" ++ String.intercalate "," r.appearedIn ++ "|"
    ++ toString r.numIterations ++ "|" ++ toString r.isDuplicate

/-- The merged output tree as (path, bytes) pairs, the files the output loop
writes under OUTPUT_DIR/metadata. -/
def mergedBytes (ts : List Tree) : List (String × String) :=
  (mergedOutput ts).map (fun q => ("metadata/" ++ q.1 ++ ".json", serializeRecord q.2))

/-- deduplicate_collections as a sequential run. The statistics block (lines
136-147) evaluates articles_with_fulltext/unique_articles before the output
directories are created (line 190); when unique_articles = 0 that division
raises an unhandled ZeroDivisionError and the run aborts with no merged
output. Division on Nat is total in Lean, so the raise is modelled by the
explicit zero test that guards the Python division. -/
def dedupRun (ts : List Tree) : Except String (List (String × String)) :=
  let st := scan ts
  if st.keys.length = 0 then Except.error "ZeroDivisionError"
  else Except.ok (mergedBytes ts)

end Dedup

namespace RateLimit

/-- One call of _rate_limit over an abstract monotone rational clock. last
is self.last_request_time; d1 is the real time elapsed between that recorded
instant and the entry time.time() read; ov is how much time.sleep oversleeps
beyond the requested duration; d2 is the delay before the final time.time()
read. The result is the new last_request_time, the instant at which the
following request is issued. -/
def rateLimitNext (interval last d1 ov d2 : ℚ) : ℚ :=
  let t1 := last + d1
  let elapsed := t1 - last
  let afterSleep := if elapsed < interval then t1 + (interval - elapsed) + ov else t1
  afterSleep + d2

/-- The recorded request timestamps of a sequence of _rate_limit calls on one
client instance, one (d1, ov, d2) triple of clock advances per call. -/
def rateLimitTimes (interval : ℚ) : ℚ → List (ℚ × ℚ × ℚ) → List ℚ
  | _, [] => []
  | last, c :: cs =>
    let t := rateLimitNext interval last c.1 c.2.1 c.2.2
    t :: rateLimitTimes interval t cs

/-- The minimum inter-request interval, 1/requests_per_second
(RATE_LIMIT_DELAY, self.request_interval). -/
def interval (requestsPerSecond : ℚ) : ℚ :=
  1 / requestsPerSecond

end RateLimit

namespace Collect

/-- Events observable at the boundary of a collector method: a rate-limiter
wait or an HTTP request carrying the identifiers sent in that call. -/
inductive Ev where
  | rateLimitWait : Ev
  | httpRequest (ids : List String) : Ev
deriving DecidableEq

/-- PubMedCollector.fetch_article_metadata: an empty list returns
immediately; otherwise one rate-limiter wait and one esummary request for
the whole list. env models the HTTP response: none for a transport or decode
failure, otherwise the result map from id to its record (none for ids the
response lacks). Returns the article list and the event trace. -/
def fetchArticleMetadata {α : Type} (env : Option (String → Option α))
    (pmidList : List String) : List α × List Ev :=
  if pmidList.isEmpty then ([], [])
  else
    match env with
    | none => ([], [Ev.rateLimitWait, Ev.httpRequest pmidList])
    | some result => (pmidList.filterMap result, [Ev.rateLimitWait, Ev.httpRequest pmidList])

/-- The successive slices pmid_list[i:i+batchSize] produced by the loop
header range(0, len(pmid_list), batchSize) of fetch_metadata_batch. -/
def chunks {α : Type} (batchSize : Nat) : List α → List (List α)
  | [] => []
  | a :: l =>
    if _h : batchSize = 0 then []
    else (a :: l).take batchSize :: chunks batchSize ((a :: l).drop batchSize)
termination_by l => l.length
decreasing_by
  simp only [List.length_drop, List.length_cons]
  omega

/-- The body of the batching loop of fetch_metadata_batch, one iteration per
slice: a rate-limiter wait, then the esummary request; on failure the batch
is skipped (continue), on success the records present in the response are
appended in batch order. env takes the batch index and the batch. -/
def runBatches {α : Type} (env : Nat → List String → Option (String → Option α)) :
    Nat → List (List String) → List α × List Ev
  | _, [] => ([], [])
  | k, c :: cs =>
    let tail := runBatches env (k + 1) cs
    match env k c with
    | none => (tail.1, Ev.rateLimitWait :: Ev.httpRequest c :: tail.2)
    | some result => (c.filterMap result ++ tail.1, Ev.rateLimitWait :: Ev.httpRequest c :: tail.2)

/-- SymptomBasedCollector.fetch_metadata_batch: chunk the identifier list
and run the batching loop from batch index 0. -/
def fetchMetadataBatch {α : Type} (env : Nat → List String → Option (String → Option α))
    (pmidList : List String) (batchSize : Nat) : List α × List Ev :=
  runBatches env 0 (chunks batchSize pmidList)

/-- Taken from the claim's words: pair every input identifier, in input
order, with the metadata the run returns for it — none when its batch
failed or when the response lacked the id. -/
def specBatchAssign {α : Type} (env : Nat → List String → Option (String → Option α)) :
    Nat → List (List String) → List (String × Option α)
  | _, [] => []
  | k, c :: cs =>
    (match env k c with
      | none => c.map (fun id => (id, (none : Option α)))
      | some result => c.map (fun id => (id, result id))) ++ specBatchAssign env (k + 1) cs

end Collect


namespace Store

/-- The output tree as a map from (directory, filename) to file contents. -/
abbrev FS := String × String → Option String

/-- The empty output tree. -/
def emptyFS : FS := fun _ => none

/-- Writing one file: open(path, w) truncates, so the write overwrites any
previous content at that path unconditionally. -/
def writeFile (fs : FS) (p : String × String) (content : String) : FS :=
  fun q => if q = p then some content else fs q

/-- save_article_data of collect_pubmed_pmc.py: writes exactly one JSON file
named article_<pmid>.json in the given directory (the driver passes
<output_root>/metadata); pmid defaults to unknown when absent. Returns the
new file system and the list of paths written. -/
def saveArticleData (dir : String) (fs : FS) (pmid : Option String) (content : String) :
    FS × List (String × String) :=
  let p := (dir, "article_" ++ pmid.getD "unknown" ++ ".json")
  (writeFile fs p content, [p])

/-- A metadata record as save_article sees it: its articleids entries as
(idtype, value) pairs, and its serialized body. -/
structure SymMeta where
  articleids : List (String × String)
  body : String
deriving DecidableEq

/-- The pmc cross-reference of a record: the first articleids entry with
idtype pmc (the break in save_article), kept only when its value is
non-empty (the `if pmc_id:` guard). -/
def extractPmcId (m : SymMeta) : Option String :=
  match m.articleids.find? (fun e => e.1 == "pmc") with
  | some e => if e.2 = "" then none else some e.2
  | none => none

/-- Bytes of the metadata file save_article writes:
json.dump of the pmid and metadata fields, rendered by a fixed
deterministic encoding. -/
def symMetaBytes (pmid : String) (m : SymMeta) : String :=
  pmid ++ "|" ++ m.body

/-- SymptomBasedCollector.save_article: always writes
metadata/<pmid>.json under the output root; writes fulltext/<pmcid>.xml
only when the fulltext argument is a non-empty string and the record
carries a pmc article id. Returns the new file system and the paths
written. -/
def saveArticle (fs : FS) (pmid : String) (m : SymMeta) (fulltext : Option String) :
    FS × List (String × String) :=
  let mp := ("metadata", pmid ++ ".json")
  let fs1 := writeFile fs mp (symMetaBytes pmid m)
  match fulltext with
  | none => (fs1, [mp])
  | some ft =>
    if ft = "" then (fs1, [mp])
    else
      match extractPmcId m with
      | some pmc =>
          (writeFile fs1 ("fulltext", pmc ++ ".xml") ft, [mp, ("fulltext", pmc ++ ".xml")])
      | none => (fs1, [mp])

/-- The per-record body of the collection loop of collect_pilot_dataset
(collect_pubmed_pmc.py lines 335-358): save the metadata file first, then,
when a pmcid was extracted, fetch the full text and write it only when the
fetch returns a non-None, non-empty body. fetchEnv models
fetch_full_text_xml. -/
def processPilotRecord (fetchEnv : String → Option String) (fs : FS)
    (pmid : String) (body : String) (pmcid : Option String) : FS × List (String × String) :=
  let mp := ("metadata", "article_" ++ pmid ++ ".json")
  let fs1 := writeFile fs mp body
  match pmcid with
  | none => (fs1, [mp])
  | some pmc =>
    match fetchEnv pmc with
    | none => (fs1, [mp])
    | some xml =>
      if xml = "" then (fs1, [mp])
      else (writeFile fs1 ("fulltext", pmc ++ ".xml") xml, [mp, ("fulltext", pmc ++ ".xml")])

end Store

namespace Validate

/-- Word characters of the regular-expression word-boundary test: letters,
digits and the underscore (the texts and keywords involved are ASCII). -/
def isWordChar (c : Char) : Bool :=
  c.isAlphanum || c == '_'

/-- A keyword (lowercase, beginning and ending with word characters, as every
VALIDATION_KEYWORDS entry does) matches at position i of the lowercased
text when its characters appear there and the neighbouring positions are
absent or hold non-word characters: the word-boundary condition of the
re.findall pattern used by validate_text_content. -/
def matchesAt (text kw : List Char) (i : Nat) : Bool :=
  decide ((text.drop i).take kw.length = kw)
    && (i == 0 || !isWordChar (text.getD (i - 1) ' '))
    && !isWordChar (text.getD (i + kw.length) ' ')

/-- The keyword occurs, word-bounded, somewhere in the text. re.findall
returns a count; validate_text_content only tests count > 0 per keyword, so
presence is what the score depends on. -/
def occursWord (kw text : List Char) : Bool :=
  (List.range (text.length + 1)).any (fun i => matchesAt text kw i)

/-- The five keyword categories of VALIDATION_KEYWORDS. -/
inductive Category where
  | differentialDiagnosis
  | diagnosticTesting
  | clinicalFeatures
  | diagnosticCriteria
  | treatmentGuidance
deriving DecidableEq, Fintype

/-- The VALIDATION_KEYWORDS table of validate_content_quality.py. -/
def keywordsOf : Category → List String
  | .differentialDiagnosis =>
      ["differential diagnosis", "differential", "ddx", "differential diagnostic",
       "alternative diagnoses", "diagnostic considerations", "diagnostic possibilities"]
  | .diagnosticTesting =>
      ["laboratory test", "diagnostic test", "laboratory diagnosis", "laboratory finding",
       "test result", "laboratory investigation", "diagnostic workup",
       "diagnostic evaluation", "sensitivity", "specificity"]
  | .clinicalFeatures =>
      ["clinical feature", "clinical presentation", "clinical manifestation",
       "signs and symptoms", "presenting symptom", "presenting sign",
       "clinical finding", "physical examination"]
  | .diagnosticCriteria =>
      ["diagnostic criteria", "diagnostic criterion", "case definition",
       "clinical criteria", "laboratory criteria"]
  | .treatmentGuidance =>
      ["treatment", "management", "therapy", "antimicrobial", "antibiotic",
       "antiviral", "antifungal"]

/-- The fixed point value validate_article adds when a category is found. -/
def points : Category → Nat
  | .differentialDiagnosis => 30
  | .diagnosticTesting => 25
  | .clinicalFeatures => 20
  | .diagnosticCriteria => 15
  | .treatmentGuidance => 10

/-- The categories in the order validate_article checks them. -/
def allCategories : List Category :=
  [.differentialDiagnosis, .diagnosticTesting, .clinicalFeatures,
   .diagnosticCriteria, .treatmentGuidance]

/-- The found flag of validate_text_content for one category: the empty-text
guard, then lowercase the text and test each keyword of the category for a
word-bounded occurrence. -/
def validateTextFound (text : String) (c : Category) : Bool :=
  if text = "" then false
  else (keywordsOf c).any (fun kw => occursWord kw.toList (text.toList.map Char.toLower))

/-- The score validate_article derives from a presence map: the fixed point
values of the found categories, summed in checking order. -/
def scoreOfPresence (pres : Category → Bool) : Nat :=
  (if pres .differentialDiagnosis then 30 else 0)
    + (if pres .diagnosticTesting then 25 else 0)
    + (if pres .clinicalFeatures then 20 else 0)
    + (if pres .diagnosticCriteria then 15 else 0)
    + (if pres .treatmentGuidance then 10 else 0)

/-- The overall_score computation of validate_article: the source presence
map comes from the full-text section concatenation when has_fulltext, else
from the abstract; an empty abstract leaves abstract_validation empty, so
the `if source:` guard fails and the score is 0. -/
def overallScore (hasFulltext : Bool) (abstractText fulltextText : String) : Nat :=
  let source : Option (Category → Bool) :=
    if hasFulltext then some (fun c => validateTextFound fulltextText c)
    else if abstractText = "" then none
    else some (fun c => validateTextFound abstractText c)
  match source with
  | none => 0
  | some pres => scoreOfPresence pres

/-- The text the score is computed over: full text when available, else the
abstract. -/
def effText (hasFulltext : Bool) (abstractText fulltextText : String) : String :=
  if hasFulltext then fulltextText else abstractText

/-- Taken from the claim's words: the sum of the fixed point values over the
set of categories whose keywords occur in the effective text. -/
def specScore (hasFulltext : Bool) (abstractText fulltextText : String) : Nat :=
  (((allCategories).filter
      (fun c => validateTextFound (effText hasFulltext abstractText fulltextText) c)).map
    points).sum

end Validate

namespace Dedup

/-- Concrete input trees for the provenance-count analysis: identifier 1
occurs in two files of the first tree and in one file of the second. -/
def exTrees : List Tree :=
  [("t1", [⟨"a", "1", "m1", none⟩, ⟨"b", "1", "m2", none⟩]),
   ("t2", [⟨"c", "1", "m3", none⟩])]

/-- Concrete input trees with two files carrying identifier 7 whose metadata
differ; the file of the first tree comes first in traversal order. -/
def exTrees2 : List Tree :=
  [("run_a", [⟨"x", "7", "firstMeta", none⟩]),
   ("run_b", [⟨"y", "7", "laterMeta", some "PMC7"⟩])]

/-- Concrete input trees whose only metadata file yields no pmid. -/
def exTreesEmpty : List Tree :=
  [("t1", [⟨"a", "", "m1", none⟩])]

/-- The invariant the scan loop maintains: the recorded key list has no
duplicates and holds exactly the pmids with a canonical file. -/
def goodState (st : ScanState) : Prop :=
  st.keys.Nodup ∧ ∀ i, i ∈ st.keys ↔ (st.firstMeta i).isSome

theorem scanStep_sources (st : ScanState) (o : String × MetaFile) (i : String) :
    (scanStep st o).sources i =
      if o.2.pmid != "" && o.2.pmid == i then st.sources i ++ [o] else st.sources i := by
  unfold scanStep
  by_cases h : o.2.pmid = ""
  · simp [h]
  · by_cases hi : o.2.pmid = i
    · rw [hi] at h ⊢
      cases hm : st.firstMeta i <;> simp [h, hm]
    · have hi2 : ¬i = o.2.pmid := fun hh => hi hh.symm
      cases hm : st.firstMeta o.2.pmid <;> simp [h, hm, hi, hi2]

theorem scanStep_firstMeta (st : ScanState) (o : String × MetaFile) (i : String) :
    (scanStep st o).firstMeta i =
      if o.2.pmid != "" && o.2.pmid == i && (st.firstMeta i).isNone
      then some o.2 else st.firstMeta i := by
  unfold scanStep
  by_cases h : o.2.pmid = ""
  · simp [h]
  · by_cases hi : o.2.pmid = i
    · rw [hi] at h ⊢
      cases hm : st.firstMeta i <;> simp [h, hm]
    · have hi2 : ¬i = o.2.pmid := fun hh => hi hh.symm
      cases hm : st.firstMeta o.2.pmid <;> simp [h, hm, hi, hi2]

theorem scanStep_keys_mem (st : ScanState) (o : String × MetaFile) (i : String) :
    i ∈ (scanStep st o).keys ↔
      i ∈ st.keys ∨ (o.2.pmid != "" && o.2.pmid == i && (st.firstMeta i).isNone) := by
  unfold scanStep
  by_cases h : o.2.pmid = ""
  · simp [h]
  · by_cases hi : o.2.pmid = i
    · rw [hi] at h ⊢
      cases hm : st.firstMeta i <;> simp [h, hm]
    · have hi2 : ¬i = o.2.pmid := fun hh => hi hh.symm
      cases hm : st.firstMeta o.2.pmid <;> simp [h, hm, hi, hi2]

theorem scanStep_good (st : ScanState) (o : String × MetaFile)
    (hg : goodState st) : goodState (scanStep st o) := by
  obtain ⟨hnd, hmem⟩ := hg
  unfold scanStep
  by_cases h : o.2.pmid = ""
  · simpa [h] using ⟨hnd, hmem⟩
  · cases hm : st.firstMeta o.2.pmid with
    | some f => simpa [h, hm] using ⟨hnd, hmem⟩
    | none =>
        refine ⟨?_, ?_⟩
        · simp only [h, hm]
          have hnotin : o.2.pmid ∉ st.keys := by
            intro hin
            have := (hmem o.2.pmid).mp hin
            simp [hm] at this
          simp [List.nodup_append, hnd, hnotin]
        · intro i
          by_cases hi : o.2.pmid = i
          · rw [hi] at h hm ⊢
            simp [h, hm]
          · have hi2 : ¬i = o.2.pmid := fun hh => hi hh.symm
            simp [h, hm, hi, hi2, hmem i]

theorem foldl_sources (l : List (String × MetaFile)) :
    ∀ (st : ScanState) (i : String),
      ((l.foldl scanStep st).sources i) =
        st.sources i ++ l.filter (fun o => o.2.pmid != "" && o.2.pmid == i) := by
  induction l with
  | nil => intro st i; simp
  | cons o l ih =>
      intro st i
      rw [List.foldl_cons, ih, scanStep_sources, List.filter_cons]
      by_cases hc : (o.2.pmid != "" && o.2.pmid == i) = true
      · simp [hc]
      · simp [hc]

theorem foldl_firstMeta_some (l : List (String × MetaFile)) :
    ∀ (st : ScanState) (i : String) (f : MetaFile),
      st.firstMeta i = some f → ((l.foldl scanStep st).firstMeta i) = some f := by
  induction l with
  | nil => intro st i f h; simpa using h
  | cons o l ih =>
      intro st i f h
      rw [List.foldl_cons]
      refine ih _ _ _ ?_
      rw [scanStep_firstMeta, h]
      simp

theorem foldl_firstMeta_none (l : List (String × MetaFile)) :
    ∀ (st : ScanState) (i : String),
      st.firstMeta i = none →
      ((l.foldl scanStep st).firstMeta i) =
        ((l.filter (fun o => o.2.pmid != "" && o.2.pmid == i)).head?).map (fun o => o.2) := by
  induction l with
  | nil => intro st i h; simpa using h
  | cons o l ih =>
      intro st i h
      rw [List.foldl_cons, List.filter_cons]
      by_cases hc : (o.2.pmid != "" && o.2.pmid == i) = true
      · have hstep : (scanStep st o).firstMeta i = some o.2 := by
          rw [scanStep_firstMeta, h]
          simp [hc]
        rw [foldl_firstMeta_some l _ _ _ hstep]
        simp [hc]
      · have hstep : (scanStep st o).firstMeta i = none := by
          rw [scanStep_firstMeta, h]
          simp only [Option.isNone_none, Bool.and_true]
          rw [if_neg hc]
        rw [ih _ _ hstep, if_neg hc]

theorem foldl_good (l : List (String × MetaFile)) :
    ∀ (st : ScanState), goodState st → goodState (l.foldl scanStep st) := by
  induction l with
  | nil => intro st h; simpa using h
  | cons o l ih => intro st h; exact ih _ (scanStep_good st o h)

theorem scan_good (ts : List Tree) : goodState (scan ts) := by
  refine foldl_good _ _ ⟨?_, ?_⟩
  · simp [initState]
  · intro i; simp [initState]

theorem scan_sources (ts : List Tree) (i : String) :
    (scan ts).sources i = (scannedOccs ts).filter (fun o => o.2.pmid == i) := by
  rw [scan, foldl_sources, scannedOccs, List.filter_filter]
  simp [initState, Bool.and_comm]

theorem scan_firstMeta (ts : List Tree) (i : String) :
    (scan ts).firstMeta i =
      (((scannedOccs ts).filter (fun o => o.2.pmid == i)).head?).map (fun o => o.2) := by
  rw [scan, foldl_firstMeta_none _ _ _ (by simp [initState]), scannedOccs, List.filter_filter]
  simp [Bool.and_comm]

theorem scan_keys_mem (ts : List Tree) (i : String) :
    i ∈ (scan ts).keys ↔ ((scannedOccs ts).filter (fun o => o.2.pmid == i)) ≠ [] := by
  rw [(scan_good ts).2 i, scan_firstMeta]
  cases h : (scannedOccs ts).filter (fun o => o.2.pmid == i) <;> simp [h]

theorem lookup_map_self (g : String → OutRecord) :
    ∀ (l : List String) (i : String), i ∈ l →
      List.lookup i (l.map (fun p => (p, g p))) = some (g i) := by
  intro l
  induction l with
  | nil => intro i hi; simp at hi
  | cons p l ih =>
      intro i hi
      by_cases hip : i = p
      · simp [List.lookup, hip]
      · have hti : i ∈ l := by
          rcases List.mem_cons.mp hi with h | h
          · exact absurd h hip
          · exact h
        have hbeq : (i == p) = false := beq_false_of_ne hip
        simp [List.lookup, hbeq, ih i hti]

theorem countP_map_self (g : String → OutRecord) (i : String) :
    ∀ l : List String,
      ((l.map (fun p => (p, g p))).countP (fun q => q.1 == i)) = l.countP (fun p => p == i) := by
  intro l
  induction l with
  | nil => simp
  | cons p l ih => simp [List.countP_cons, ih]

theorem countP_eq_one_of_nodup (i : String) :
    ∀ l : List String, l.Nodup → i ∈ l → l.countP (fun p => p == i) = 1 := by
  intro l
  induction l with
  | nil => intro _ hi; simp at hi
  | cons p l ih =>
      intro hnd hi
      rcases List.nodup_cons.mp hnd with ⟨hp, hnd'⟩
      by_cases hip : i = p
      · subst hip
        have hz : l.countP (fun p => p == i) = 0 := by
          rw [List.countP_eq_zero]
          intro a ha
          simp only [beq_iff_eq]
          intro hai
          exact hp (hai ▸ ha)
        simp [List.countP_cons, hz]
      · have hbeq : (p == i) = false := beq_false_of_ne (fun hh => hip hh.symm)
        have hil : i ∈ l := by
          rcases List.mem_cons.mp hi with h | h
          · exact absurd h hip
          · exact h
        simp [List.countP_cons, hbeq, ih hnd' hil]

theorem mem_keys_of_occ (ts : List Tree) (i : String) (o : String × MetaFile)
    (ho : o ∈ allOccs ts) (hp : o.2.pmid = i) (hne : i ≠ "") : i ∈ (scan ts).keys := by
  rw [scan_keys_mem]
  have hs : o ∈ scannedOccs ts := by
    rw [scannedOccs, List.mem_filter]
    exact ⟨ho, by simp [hp, hne]⟩
  have : o ∈ (scannedOccs ts).filter (fun o => o.2.pmid == i) := by
    rw [List.mem_filter]
    exact ⟨hs, by simp [hp]⟩
  exact List.ne_nil_of_mem this

/-- C1 counterexample. Identifier 1 occurs in two metadata files of the
first input tree and in one file of the second, so it is present in more
than one input tree (the claim's hypothesis holds, and the number of trees
containing it is 2), yet the merged record's provenance count
(num_iterations) is 3: the code counts file occurrences, not trees. -/
theorem c1_provenance_counterexample :
    1 < treesContaining exTrees "1" ∧
    treesContaining exTrees "1" = 2 ∧
    ((mergedOutput exTrees).lookup "1").map OutRecord.numIterations = some 3 := by
  refine ⟨by decide, by decide, ?_⟩
  decide

/-- C1 (amended): for every identifier i (non-empty pmid) present in more
than one input tree, the merged output contains exactly one metadata record
for i; its provenance count equals the number of scanned metadata files
containing i — the occurrences across all trees, which coincides with the
number of trees containing i only when no tree holds i twice — and
is_duplicate equals (count > 1). -/
theorem c1_provenance_count (ts : List Tree) (i : String)
    (h : 1 < treesContaining ts i) (hne : i ≠ "") :
    (mergedOutput ts).countP (fun q => q.1 == i) = 1 ∧
    ∃ r, (mergedOutput ts).lookup i = some r ∧
      r.numIterations = occCount ts i ∧
      r.isDuplicate = decide (1 < occCount ts i) := by
  have hkey : i ∈ (scan ts).keys := by
    have hpos : 0 < (ts.filter (fun t => t.2.any (fun f => f.pmid == i))).length := by
      unfold treesContaining at h
      omega
    obtain ⟨t, ht⟩ := List.exists_mem_of_length_pos hpos
    rcases List.mem_filter.mp ht with ⟨hts, hany⟩
    obtain ⟨f, hf, hfi⟩ := List.any_eq_true.mp hany
    have hfi' : f.pmid = i := by simpa using hfi
    refine mem_keys_of_occ ts i (t.1, f) ?_ hfi' hne
    rw [allOccs, List.mem_flatMap]
    exact ⟨t, hts, List.mem_map.mpr ⟨f, hf, rfl⟩⟩
  refine ⟨?_, ?_⟩
  · rw [mergedOutput, countP_map_self]
    exact countP_eq_one_of_nodup i _ (scan_good ts).1 hkey
  · refine ⟨recordFor (scan ts) i, ?_, ?_, ?_⟩
    · rw [mergedOutput]
      exact lookup_map_self _ _ _ hkey
    · rw [recordFor, scan_sources, occCount]
    · rw [recordFor, scan_sources, occCount]

/-- C1 witness: the amended statement evaluated on the concrete trees of the
counterexample, where the occurrence count of identifier 1 is 3. -/
theorem c1_provenance_count_witness :
    (mergedOutput exTrees).countP (fun q => q.1 == "1") = 1 ∧
    ∃ r, (mergedOutput exTrees).lookup "1" = some r ∧
      r.numIterations = occCount exTrees "1" ∧
      r.isDuplicate = decide (1 < occCount exTrees "1") :=
  c1_provenance_count exTrees "1" (by decide) (by decide)

/-- C4: for every identifier i occurring in the scanned trees, the merged
record for i carries the content of the first scanned metadata file with
pmid i in traversal order, whatever the later files with the same pmid
contain. -/
theorem c4_first_seen_wins (ts : List Tree) (i : String) (o : String × MetaFile)
    (h : ((scannedOccs ts).filter (fun q => q.2.pmid == i)).head? = some o) :
    ∃ r, (mergedOutput ts).lookup i = some r ∧ r.content = o.2.content := by
  have hne : ((scannedOccs ts).filter (fun q => q.2.pmid == i)) ≠ [] := by
    intro hnil
    rw [hnil] at h
    simp at h
  have hkey : i ∈ (scan ts).keys := (scan_keys_mem ts i).mpr hne
  refine ⟨recordFor (scan ts) i, ?_, ?_⟩
  · rw [mergedOutput]
    exact lookup_map_self _ _ _ hkey
  · rw [recordFor]
    simp only [scan_firstMeta, h]
    rfl

/-- C4 witness: two trees each hold a file for identifier 7 with different
metadata; the merged record carries the first tree's content. -/
theorem c4_first_seen_wins_witness :
    ∃ r, (mergedOutput exTrees2).lookup "7" = some r ∧ r.content = "firstMeta" :=
  c4_first_seen_wins exTrees2 "7" ("run_a", ⟨"x", "7", "firstMeta", none⟩) (by decide)

/-- C5: the merged output bytes are a deterministic function of the input
trees in their traversal order. The scan, the provenance attachment and the
output serialization consume nothing but the trees — no clock and no other
ambient state (the merged files, unlike the collectors' run summaries,
embed no timestamp) — so two runs over the same inputs produce byte-identical
output. -/
theorem c5_idempotent_output (ts₁ ts₂ : List Tree) (h : ts₁ = ts₂) :
    mergedBytes ts₁ = mergedBytes ts₂ := by
  rw [h]

/-- C5 witness: a second run over the concrete trees of the first-seen
example yields the same bytes. -/
theorem c5_idempotent_output_witness : mergedBytes exTrees2 = mergedBytes exTrees2 :=
  c5_idempotent_output exTrees2 exTrees2 rfl

/-- C10: when no scanned metadata file yields a non-empty pmid, the run
reaches the full-text coverage division with unique_articles = 0 and aborts
on ZeroDivisionError before the merged output tree is created. -/
theorem c10_zero_unique_aborts (ts : List Tree)
    (h : ∀ o ∈ allOccs ts, o.2.pmid = "") :
    dedupRun ts = Except.error "ZeroDivisionError" := by
  have hs : scannedOccs ts = [] := by
    rw [scannedOccs, List.filter_eq_nil_iff]
    intro o ho
    simp [h o ho]
  have hkeys : (scan ts).keys = [] := by
    rw [List.eq_nil_iff_forall_not_mem]
    intro i hi
    exact (scan_keys_mem ts i).mp hi (by rw [hs]; rfl)
  simp [dedupRun, hkeys]

/-- C10 witness: one tree with one unreadable metadata file aborts the run. -/
theorem c10_zero_unique_aborts_witness :
    dedupRun exTreesEmpty = Except.error "ZeroDivisionError" :=
  c10_zero_unique_aborts exTreesEmpty (by decide)

end Dedup

namespace RateLimit

theorem rateLimitNext_ge (iv last d1 ov d2 : ℚ)
    (_h1 : 0 ≤ d1) (h2 : 0 ≤ ov) (h3 : 0 ≤ d2) :
    last + iv ≤ rateLimitNext iv last d1 ov d2 := by
  unfold rateLimitNext
  dsimp only
  split_ifs with hc
  · linarith
  · linarith

theorem rateLimitTimes_chain (iv eps : ℚ) (heps : 0 ≤ eps) :
    ∀ (calls : List (ℚ × ℚ × ℚ)) (last : ℚ),
      (∀ c ∈ calls, 0 ≤ c.1 ∧ 0 ≤ c.2.1 ∧ 0 ≤ c.2.2) →
      List.Chain' (fun a b => iv - eps ≤ b - a) (rateLimitTimes iv last calls) := by
  intro calls
  induction calls with
  | nil => intro last _; simp [rateLimitTimes]
  | cons c cs ih =>
      intro last hc
      rw [rateLimitTimes]
      rw [List.chain'_cons']
      refine ⟨?_, ih _ (fun d hd => hc d (List.mem_cons_of_mem c hd))⟩
      intro y hy
      cases cs with
      | nil => simp [rateLimitTimes] at hy
      | cons c2 cs2 =>
          rw [rateLimitTimes] at hy
          simp only [List.head?_cons, Option.mem_def, Option.some.injEq] at hy
          subst hy
          have h2 := hc c2 (List.mem_cons_of_mem c (List.mem_cons_self c2 cs2))
          have := rateLimitNext_ge iv (rateLimitNext iv last c.1 c.2.1 c.2.2)
            c2.1 c2.2.1 c2.2.2 h2.1 h2.2.1 h2.2.2
          linarith

/-- C3: over a monotone clock where time.sleep never undersleeps, the
timestamps a client records across a sequence of _rate_limit calls are
pairwise spaced by at least interval = 1/requests_per_second: every
consecutive pair satisfies timestamp[n+1] - timestamp[n] >= interval - eps
for any eps >= 0 (exact rational arithmetic needs no slack, so the claim's
epsilon-weakened bound follows from the exact one). -/
theorem c3_min_request_spacing (requestsPerSecond last eps : ℚ)
    (calls : List (ℚ × ℚ × ℚ))
    (hcalls : ∀ c ∈ calls, 0 ≤ c.1 ∧ 0 ≤ c.2.1 ∧ 0 ≤ c.2.2)
    (heps : 0 ≤ eps) :
    List.Chain' (fun a b => interval requestsPerSecond - eps ≤ b - a)
      (rateLimitTimes (interval requestsPerSecond) last calls) :=
  rateLimitTimes_chain (interval requestsPerSecond) eps heps calls last hcalls

/-- C3 witness: two calls at one request per second, starting from a zero
clock, are spaced by at least one second. -/
theorem c3_min_request_spacing_witness :
    List.Chain' (fun a b => interval 1 - 0 ≤ b - a)
      (rateLimitTimes (interval 1) 0 [(0, 0, 0), (0, 0, 0)]) :=
  c3_min_request_spacing 1 0 0 [(0, 0, 0), (0, 0, 0)] (by norm_num) (le_refl 0)

end RateLimit

namespace Collect

theorem chunks_length_le {α : Type} (batchSize : Nat) :
    ∀ (n : Nat) (l : List α), l.length ≤ n →
      ∀ c ∈ chunks batchSize l, c.length ≤ batchSize := by
  intro n
  induction n with
  | zero =>
      intro l hl c hc
      have : l = [] := List.eq_nil_of_length_eq_zero (Nat.le_zero.mp hl)
      subst this
      simp [chunks] at hc
  | succ n ih =>
      intro l hl c hc
      cases l with
      | nil => simp [chunks] at hc
      | cons a t =>
          by_cases hbs : batchSize = 0
          · simp [chunks, hbs] at hc
          · rw [chunks] at hc
            simp only [hbs, dite_false] at hc
            rcases List.mem_cons.mp hc with h | h
            · subst h
              exact List.length_take_le batchSize (a :: t)
            · refine ih _ ?_ c h
              simp only [List.length_drop, List.length_cons] at *
              omega

theorem chunks_join {α : Type} (batchSize : Nat) (hbs : batchSize ≠ 0) :
    ∀ (n : Nat) (l : List α), l.length ≤ n → (chunks batchSize l).flatten = l := by
  intro n
  induction n with
  | zero =>
      intro l hl
      have : l = [] := List.eq_nil_of_length_eq_zero (Nat.le_zero.mp hl)
      subst this
      simp [chunks]
  | succ n ih =>
      intro l hl
      cases l with
      | nil => simp [chunks]
      | cons a t =>
          rw [chunks]
          simp only [hbs, dite_false, List.flatten_cons]
          rw [ih ((a :: t).drop batchSize) ?_]
          · exact List.take_append_drop batchSize (a :: t)
          · simp only [List.length_drop, List.length_cons] at *
            omega

theorem specBatchAssign_map_fst {α : Type}
    (env : Nat → List String → Option (String → Option α)) :
    ∀ (cs : List (List String)) (k : Nat),
      (specBatchAssign env k cs).map Prod.fst = cs.flatten := by
  intro cs
  induction cs with
  | nil => intro k; simp [specBatchAssign]
  | cons c cs ih =>
      intro k
      rw [specBatchAssign]
      cases henv : env k c with
      | none =>
          simp only [List.map_append, ih (k + 1), List.map_map]
          rw [show (Prod.fst ∘ fun id : String => (id, (none : Option α))) = fun x => x from rfl]
          simp
      | some result =>
          simp only [List.map_append, ih (k + 1), List.map_map]
          rw [show (Prod.fst ∘ fun id : String => (id, result id)) = fun x => x from rfl]
          simp

theorem filterMap_none_eq_nil {α β : Type} :
    ∀ l : List α, (l.filterMap (fun _ => (none : Option β))) = [] := by
  intro l
  induction l with
  | nil => rfl
  | cons a l ih => simp [List.filterMap_cons, ih]

theorem runBatches_fst {α : Type}
    (env : Nat → List String → Option (String → Option α)) :
    ∀ (cs : List (List String)) (k : Nat),
      (runBatches env k cs).1 = (specBatchAssign env k cs).filterMap Prod.snd := by
  intro cs
  induction cs with
  | nil => intro k; simp [runBatches, specBatchAssign]
  | cons c cs ih =>
      intro k
      rw [runBatches, specBatchAssign]
      cases henv : env k c with
      | none =>
          simp only [List.filterMap_append, ih (k + 1), List.filterMap_map]
          rw [show ((fun p => p.2) ∘ fun id => ((id, (none : Option α)) : String × Option α))
              = fun _ => (none : Option α) from rfl]
          rw [filterMap_none_eq_nil c]
          rfl
      | some result =>
          simp only [List.filterMap_append, ih (k + 1), List.filterMap_map]
          rfl

theorem runBatches_events {α : Type}
    (env : Nat → List String → Option (String → Option α)) :
    ∀ (cs : List (List String)) (k : Nat) (ids : List String),
      Ev.httpRequest ids ∈ (runBatches env k cs).2 → ids ∈ cs := by
  intro cs
  induction cs with
  | nil => intro k ids h; simp [runBatches] at h
  | cons c cs ih =>
      intro k ids h
      rw [runBatches] at h
      have hmem : Ev.httpRequest ids ∈
          Ev.rateLimitWait :: Ev.httpRequest c :: (runBatches env (k + 1) cs).2 := by
        cases henv : env k c <;> rw [henv] at h <;> exact h
      rcases List.mem_cons.mp hmem with h1 | h1
      · exact absurd h1 (by simp)
      · rcases List.mem_cons.mp h1 with h2 | h2
        · injection h2 with he
          rw [he]
          exact List.mem_cons_self c cs
        · exact List.mem_cons_of_mem c (ih (k + 1) ids h2)

/-- C2: for every identifier list and every batch_size > 0,
fetch_metadata_batch sends every underlying esummary request with at most
batch_size identifiers; the in-order assignment of returned metadata to
input identifiers covers exactly the input list in input order, and the
output equals that assignment with the unreturned identifiers dropped — a
failed batch contributes only dropped entries (the loop continues), so the
output may be shorter than the input while preserving its order. -/
theorem c2_batched_fetch {α : Type} (env : Nat → List String → Option (String → Option α))
    (pmidList : List String) (batchSize : Nat) (h : 0 < batchSize) :
    (∀ ids, Ev.httpRequest ids ∈ (fetchMetadataBatch env pmidList batchSize).2 →
      ids.length ≤ batchSize)
    ∧ (specBatchAssign env 0 (chunks batchSize pmidList)).map Prod.fst = pmidList
    ∧ (fetchMetadataBatch env pmidList batchSize).1
        = (specBatchAssign env 0 (chunks batchSize pmidList)).filterMap Prod.snd := by
  refine ⟨?_, ?_, ?_⟩
  · intro ids hids
    exact chunks_length_le batchSize pmidList.length pmidList (le_refl _) ids
      (runBatches_events env _ 0 ids hids)
  · rw [specBatchAssign_map_fst]
    exact chunks_join batchSize (Nat.pos_iff_ne_zero.mp h) pmidList.length pmidList (le_refl _)
  · exact runBatches_fst env _ 0

/-- C2 witness: three identifiers in batches of two, where the second batch
fails and the first returns metadata for one identifier only. -/
theorem c2_batched_fetch_witness :
    0 < 2 ∧
    ((∀ ids, Ev.httpRequest ids ∈
        (fetchMetadataBatch
          (fun k _c => if k = 0 then some (fun id => if id = "a" then some 5 else none)
            else (none : Option (String → Option Nat)))
          ["a", "b", "c"] 2).2 → ids.length ≤ 2)
      ∧ (specBatchAssign
          (fun k _c => if k = 0 then some (fun id => if id = "a" then some 5 else none)
            else (none : Option (String → Option Nat)))
          0 (chunks 2 ["a", "b", "c"])).map Prod.fst = ["a", "b", "c"]
      ∧ (fetchMetadataBatch
          (fun k _c => if k = 0 then some (fun id => if id = "a" then some 5 else none)
            else (none : Option (String → Option Nat)))
          ["a", "b", "c"] 2).1
          = (specBatchAssign
              (fun k _c => if k = 0 then some (fun id => if id = "a" then some 5 else none)
                else (none : Option (String → Option Nat)))
              0 (chunks 2 ["a", "b", "c"])).filterMap Prod.snd) :=
  ⟨by decide,
   c2_batched_fetch
     (fun k _c => if k = 0 then some (fun id => if id = "a" then some 5 else none)
       else (none : Option (String → Option Nat)))
     ["a", "b", "c"] 2 (by decide)⟩

/-- C9: fetching metadata for an empty identifier list returns an empty
result with an empty event trace — no rate-limiter wait and no HTTP
request — in both collectors: fetch_article_metadata returns at its
`if not pmid_list` guard, and fetch_metadata_batch runs its loop over zero
batches. -/
theorem c9_empty_fetch {α : Type} (env1 : Option (String → Option α))
    (env2 : Nat → List String → Option (String → Option α)) (batchSize : Nat) :
    fetchArticleMetadata env1 [] = ([], []) ∧
    fetchMetadataBatch env2 [] batchSize = ([], []) := by
  constructor
  · rfl
  · simp [fetchMetadataBatch, chunks, runBatches]

end Collect

namespace Store

/-- C8 counterexample. The PubMed collector's save_article_data, invoked by
the driver with the metadata directory, names the file article_<pmid>.json:
saving the record with identifier 123 writes metadata/article_123.json and
not metadata/123.json as the claim states. -/
theorem c8_path_counterexample :
    (saveArticleData "metadata" emptyFS (some "123") "content").2
        = [("metadata", "article_123.json")]
    ∧ ("metadata", "123.json") ∉ (saveArticleData "metadata" emptyFS (some "123") "content").2 := by
  constructor
  · rfl
  · decide

/-- C8 (amended): each save writes exactly one metadata file — the
symptom-based collector at <output_root>/metadata/<identifier>.json, the
PubMed collector at <output_root>/metadata/article_<identifier>.json — and
a repeat save of the same identifier unconditionally overwrites that
file. -/
theorem c8_metadata_layout (dir : String) (fs fs2 : FS) (pmid c1 c2 : String)
    (m m2 : SymMeta) (ft1 ft2 : Option String) :
    (saveArticleData dir fs (some pmid) c1).2 = [(dir, "article_" ++ pmid ++ ".json")]
    ∧ ((saveArticleData dir (saveArticleData dir fs (some pmid) c1).1 (some pmid) c2).1
        (dir, "article_" ++ pmid ++ ".json")) = some c2
    ∧ (∀ pf, ("metadata", pf) ∈ (saveArticle fs2 pmid m ft1).2 ↔ pf = pmid ++ ".json")
    ∧ ((saveArticle (saveArticle fs2 pmid m ft1).1 pmid m2 ft2).1 ("metadata", pmid ++ ".json"))
        = some (symMetaBytes pmid m2) := by
  refine ⟨rfl, ?_, ?_, ?_⟩
  · simp [saveArticleData, writeFile]
  · intro pf
    cases ft1 with
    | none => simp [saveArticle]
    | some ft =>
        by_cases hft : ft = ""
        · simp [saveArticle, hft]
        · cases hpmc : extractPmcId m with
          | none => simp [saveArticle, hft, hpmc]
          | some pmc => simp [saveArticle, hft, hpmc]
  · have hmeta : ∀ (g : FS) (mm : SymMeta) (ff : Option String),
        (saveArticle g pmid mm ff).1 ("metadata", pmid ++ ".json")
          = some (symMetaBytes pmid mm) := by
      intro g mm ff
      cases ff with
      | none => simp [saveArticle, writeFile]
      | some ft =>
          by_cases hft : ft = ""
          · simp [saveArticle, hft, writeFile]
          · cases hpmc : extractPmcId mm with
            | none => simp [saveArticle, hft, hpmc, writeFile]
            | some pmc => simp [saveArticle, hft, hpmc, writeFile]
    exact hmeta _ m2 ft2

/-- C6: a full-text file is persisted exactly when the record carries a pmc
cross-reference and the fetch succeeds with a non-None, non-empty body; the
metadata file is written in every case, and both save paths return normally
whatever the fetch outcome. Stated for the per-record step of
collect_pilot_dataset and for save_article of the symptom-based
collector. -/
theorem c6_fulltext_persistence (fetchEnv : String → Option String) (fs fs2 : FS)
    (pmid body : String) (pmcid : Option String) (m : SymMeta) (fulltext : Option String) :
    (("metadata", "article_" ++ pmid ++ ".json") ∈ (processPilotRecord fetchEnv fs pmid body pmcid).2
      ∧ ∀ pf, ("fulltext", pf) ∈ (processPilotRecord fetchEnv fs pmid body pmcid).2 ↔
          ∃ p xml, pmcid = some p ∧ pf = p ++ ".xml" ∧ fetchEnv p = some xml ∧ xml ≠ "")
    ∧ (("metadata", pmid ++ ".json") ∈ (saveArticle fs2 pmid m fulltext).2
      ∧ ∀ pf, ("fulltext", pf) ∈ (saveArticle fs2 pmid m fulltext).2 ↔
          ∃ p ft, extractPmcId m = some p ∧ pf = p ++ ".xml" ∧ fulltext = some ft ∧ ft ≠ "") := by
  constructor
  · constructor
    · cases pmcid with
      | none => simp [processPilotRecord]
      | some p =>
          cases h : fetchEnv p with
          | none => simp [processPilotRecord, h]
          | some xml =>
              by_cases hx : xml = "" <;> simp [processPilotRecord, h, hx]
    · intro pf
      cases pmcid with
      | none => simp [processPilotRecord]
      | some p =>
          cases h : fetchEnv p with
          | none => simp [processPilotRecord, h]
          | some xml =>
              by_cases hx : xml = "" <;> simp [processPilotRecord, h, hx]
  · constructor
    · cases fulltext with
      | none => simp [saveArticle]
      | some ft =>
          by_cases hft : ft = ""
          · simp [saveArticle, hft]
          · cases hpmc : extractPmcId m with
            | none => simp [saveArticle, hft, hpmc]
            | some pmc => simp [saveArticle, hft, hpmc]
    · intro pf
      cases fulltext with
      | none => simp [saveArticle]
      | some ft =>
          by_cases hft : ft = ""
          · simp [saveArticle, hft]
          · cases hpmc : extractPmcId m with
            | none => simp [saveArticle, hft, hpmc]
            | some pmc => simp [saveArticle, hft, hpmc]

end Store

namespace Validate

theorem validateTextFound_empty (c : Category) : validateTextFound "" c = false := by
  simp [validateTextFound]

theorem overallScore_eq_presence (hf : Bool) (a f : String) :
    overallScore hf a f = scoreOfPresence (fun c => validateTextFound (effText hf a f) c) := by
  cases hf with
  | true => simp [overallScore, effText]
  | false =>
      by_cases ha : a = ""
      · simp [overallScore, effText, ha, scoreOfPresence, validateTextFound_empty]
      · simp [overallScore, effText, ha]

theorem sum_filter_eq_scoreOfPresence (p : Category → Bool) :
    ((allCategories.filter p).map points).sum = scoreOfPresence p := by
  cases h1 : p .differentialDiagnosis <;> cases h2 : p .diagnosticTesting <;>
    cases h3 : p .clinicalFeatures <;> cases h4 : p .diagnosticCriteria <;>
    cases h5 : p .treatmentGuidance <;>
    simp [allCategories, scoreOfPresence, List.filter, h1, h2, h3, h4, h5, points]

theorem specScore_eq_presence (hf : Bool) (a f : String) :
    specScore hf a f = scoreOfPresence (fun c => validateTextFound (effText hf a f) c) := by
  rw [specScore, sum_filter_eq_scoreOfPresence]

theorem scoreOfPresence_congr (p q : Category → Bool) (h : ∀ c, p c = q c) :
    scoreOfPresence p = scoreOfPresence q := by
  have : p = q := funext h
  rw [this]

theorem scoreOfPresence_flip (p q : Category → Bool) (c : Category)
    (h1 : p c = false) (h2 : q c = true) (h3 : ∀ d, d ≠ c → q d = p d) :
    scoreOfPresence q = scoreOfPresence p + points c := by
  cases c with
  | differentialDiagnosis =>
      have e2 := h3 .diagnosticTesting (by decide)
      have e3 := h3 .clinicalFeatures (by decide)
      have e4 := h3 .diagnosticCriteria (by decide)
      have e5 := h3 .treatmentGuidance (by decide)
      simp only [scoreOfPresence, h1, h2, e2, e3, e4, e5, points]
      cases p .diagnosticTesting <;> cases p .clinicalFeatures <;>
        cases p .diagnosticCriteria <;> cases p .treatmentGuidance <;> simp
  | diagnosticTesting =>
      have e1 := h3 .differentialDiagnosis (by decide)
      have e3 := h3 .clinicalFeatures (by decide)
      have e4 := h3 .diagnosticCriteria (by decide)
      have e5 := h3 .treatmentGuidance (by decide)
      simp only [scoreOfPresence, h1, h2, e1, e3, e4, e5, points]
      cases p .differentialDiagnosis <;> cases p .clinicalFeatures <;>
        cases p .diagnosticCriteria <;> cases p .treatmentGuidance <;> simp
  | clinicalFeatures =>
      have e1 := h3 .differentialDiagnosis (by decide)
      have e2 := h3 .diagnosticTesting (by decide)
      have e4 := h3 .diagnosticCriteria (by decide)
      have e5 := h3 .treatmentGuidance (by decide)
      simp only [scoreOfPresence, h1, h2, e1, e2, e4, e5, points]
      cases p .differentialDiagnosis <;> cases p .diagnosticTesting <;>
        cases p .diagnosticCriteria <;> cases p .treatmentGuidance <;> simp
  | diagnosticCriteria =>
      have e1 := h3 .differentialDiagnosis (by decide)
      have e2 := h3 .diagnosticTesting (by decide)
      have e3 := h3 .clinicalFeatures (by decide)
      have e5 := h3 .treatmentGuidance (by decide)
      simp only [scoreOfPresence, h1, h2, e1, e2, e3, e5, points]
      cases p .differentialDiagnosis <;> cases p .diagnosticTesting <;>
        cases p .clinicalFeatures <;> cases p .treatmentGuidance <;> simp
  | treatmentGuidance =>
      have e1 := h3 .differentialDiagnosis (by decide)
      have e2 := h3 .diagnosticTesting (by decide)
      have e3 := h3 .clinicalFeatures (by decide)
      have e4 := h3 .diagnosticCriteria (by decide)
      simp only [scoreOfPresence, h1, h2, e1, e2, e3, e4, points]
      cases p .differentialDiagnosis <;> cases p .diagnosticTesting <;>
        cases p .clinicalFeatures <;> cases p .diagnosticCriteria <;> simp

theorem scoreOfPresence_le (p : Category → Bool) : scoreOfPresence p ≤ 100 := by
  cases h1 : p .differentialDiagnosis <;> cases h2 : p .diagnosticTesting <;>
    cases h3 : p .clinicalFeatures <;> cases h4 : p .diagnosticCriteria <;>
    cases h5 : p .treatmentGuidance <;>
    simp [scoreOfPresence, h1, h2, h3, h4, h5]

/-- C7: the validator's overall score equals the sum of the fixed point
values over the set of keyword categories found, case-insensitively and
word-bounded, in the full text if available and otherwise in the abstract;
the score is a function of category presence alone, so another occurrence of
an already-matched category leaves it unchanged, a newly matched category
raises it by exactly that category's point value, and it always lies between
0 and 100. -/
theorem c7_validator_scoring :
    (∀ hf a f, overallScore hf a f = specScore hf a f)
    ∧ (∀ hf a f hf2 a2 f2,
        (∀ c, validateTextFound (effText hf a f) c = validateTextFound (effText hf2 a2 f2) c) →
        overallScore hf a f = overallScore hf2 a2 f2)
    ∧ (∀ hf a f hf2 a2 f2 c,
        validateTextFound (effText hf a f) c = false →
        validateTextFound (effText hf2 a2 f2) c = true →
        (∀ d, d ≠ c → validateTextFound (effText hf2 a2 f2) d = validateTextFound (effText hf a f) d) →
        overallScore hf2 a2 f2 = overallScore hf a f + points c)
    ∧ (∀ hf a f, overallScore hf a f ≤ 100) := by
  refine ⟨?_, ?_, ?_, ?_⟩
  · intro hf a f
    rw [overallScore_eq_presence, specScore_eq_presence]
  · intro hf a f hf2 a2 f2 h
    rw [overallScore_eq_presence, overallScore_eq_presence]
    exact scoreOfPresence_congr _ _ h
  · intro hf a f hf2 a2 f2 c h1 h2 h3
    rw [overallScore_eq_presence, overallScore_eq_presence]
    exact scoreOfPresence_flip _ _ c h1 h2 h3
  · intro hf a f
    rw [overallScore_eq_presence]
    exact scoreOfPresence_le _

/-- C7 witness: an abstract containing the word treatment scores 10; adding
the phrase differential diagnosis — a new category — raises the score by
exactly 30, that category's point value. -/
theorem c7_validator_scoring_witness :
    validateTextFound (effText false "treatment" "") Category.differentialDiagnosis = false ∧
    validateTextFound (effText false "treatment differential diagnosis" "")
      Category.differentialDiagnosis = true ∧
    overallScore false "treatment differential diagnosis" ""
      = overallScore false "treatment" "" + points Category.differentialDiagnosis :=
  ⟨by decide, by decide,
   c7_validator_scoring.2.2.1 false "treatment" "" false "treatment differential diagnosis" ""
     Category.differentialDiagnosis (by decide) (by decide) (by decide)⟩

end Validate

namespace Store

/-- C6 witness: a record with pmcid PMC1 whose fetch succeeds gets both its
metadata file and fulltext/PMC1.xml written. -/
theorem c6_fulltext_persistence_witness :
    ("metadata", "article_9.json") ∈
      (processPilotRecord (fun p => if p = "PMC1" then some "x" else none)
        emptyFS "9" "b" (some "PMC1")).2
    ∧ ("fulltext", "PMC1.xml") ∈
      (processPilotRecord (fun p => if p = "PMC1" then some "x" else none)
        emptyFS "9" "b" (some "PMC1")).2 :=
  ⟨(c6_fulltext_persistence (fun p => if p = "PMC1" then some "x" else none)
      emptyFS emptyFS "9" "b" (some "PMC1") ⟨[], ""⟩ none).1.1,
   ((c6_fulltext_persistence (fun p => if p = "PMC1" then some "x" else none)
      emptyFS emptyFS "9" "b" (some "PMC1") ⟨[], ""⟩ none).1.2 "PMC1.xml").mpr
     ⟨"PMC1", "x", rfl, rfl, by decide, by decide⟩⟩

/-- C8 witness: the amended layout evaluated at identifier 9: one file at
metadata/article_9.json, and a repeat save replaces its content. -/
theorem c8_metadata_layout_witness :
    (saveArticleData "metadata" emptyFS (some "9") "b1").2 = [("metadata", "article_9.json")]
    ∧ ((saveArticleData "metadata" (saveArticleData "metadata" emptyFS (some "9") "b1").1
        (some "9") "b2").1 ("metadata", "article_9.json")) = some "b2" :=
  ⟨(c8_metadata_layout "metadata" emptyFS emptyFS "9" "b1" "b2" ⟨[], "m"⟩ ⟨[], "m"⟩ none none).1,
   (c8_metadata_layout "metadata" emptyFS emptyFS "9" "b1" "b2"
      ⟨[], "m"⟩ ⟨[], "m"⟩ none none).2.1⟩

end Store
